import Mathlib

/-!
Verification of the photowall wallpaper generator.

The Go program fetches media items, caches them on disk, lays them out on a
grid (square or justified) and composites a wallpaper image.  The definitions
below are shallow embeddings of the corresponding Go functions; machine `int`
values are modelled by `Int` (Go division truncates toward zero, which is
`Int.tdiv`), and the `float64` aspect-ratio arithmetic of the justified layout
is modelled by exact fractions kept as numerator/denominator pairs of `Int`.
-/

/-! Utility helpers (file with ceilIntDivision, minInt, maxInt, absInt). -/

-- Go: func ceilIntDivision(a, b int) int { return 1 + ((a - 1) / b) }
-- The source comment notes it works only for positive non-zero numbers.
def ceilIntDivision (a b : Int) : Int := 1 + (a - 1).tdiv b

-- Go: func minInt(a, b int) int { if a < b { return a }; return b }
def minInt (a b : Int) : Int := if a < b then a else b

-- Go: func maxInt(a, b int) int { if a > b { return a }; return b }
def maxInt (a b : Int) : Int := if a > b then a else b

/-! Data model. -/

-- Go: type MediaItem struct { ID, URL string; Width, Height int }
structure MediaItem where
  ID : String
  URL : String
  Width : Int
  Height : Int
deriving DecidableEq

/-! Center cropping (func cropImage). The Go function receives an image and
reads its bounds; the embedding takes the two span lengths `dx`, `dy` and
returns the new spans together with the crop offsets. -/

def cropImage (dx dy : Int) : (Int × Int) × (Int × Int) :=
  let ndx := if dx < dy then dx else dy
  let ndy := if dx < dy then dx else dy
  ((ndx, ndy), ((dx - ndx).tdiv 2, (dy - ndy).tdiv 2))

/-! Item mutation performed by downloadImage: when square tiles are requested
and the decoded bitmap is not square, the image is cropped and the width and
height of the owning MediaItem are overwritten with the crop dimensions.  The
embedding returns the resulting item together with a flag telling whether the
fields were written. -/

def downloadImageUpdateItem (squareTiles : Bool) (imgW imgH : Int)
    (item : MediaItem) : MediaItem × Bool :=
  if squareTiles && !(imgW == imgH) then
    let c := cropImage imgW imgH
    ({ item with Width := c.1.1, Height := c.1.2 }, true)
  else
    (item, false)

/-! Cache model.  A cache directory is a list of entries; `header` is the
result of decoding the image header of the file (`none` when the bytes do not
decode).  Directories are ignored by cachedImages and never decode. -/

structure CacheFile where
  name : String
  isDir : Bool
  header : Option (Int × Int)
deriving DecidableEq

abbrev CacheDir := List CacheFile

def lookupFile (st : CacheDir) (id : String) : Option CacheFile :=
  st.find? (fun f => f.name == id)

/-- Result of os.Open followed by image.DecodeConfig on the cache path of
`id`: the header dimensions when a decodable regular file is present. -/
def decodeHeader (st : CacheDir) (id : String) : Option (Int × Int) :=
  match lookupFile st id with
  | none => none
  | some f => if f.isDir then none else f.header

-- Go: func imageHasCorrectSize(iconf *image.Config, item *MediaItem) bool
def imageHasCorrectSize (squareTiles : Bool) (confWidth confHeight : Int)
    (item : MediaItem) : Bool :=
  if squareTiles then
    let size := minInt item.Width item.Height
    confHeight == size && confWidth == size
  else
    confWidth == item.Width && confHeight == item.Height

/-- Cache validity check as performed by downloadImages for one item: the
entry must be listed by cachedImages (a regular file), its header must
decode, and imageHasCorrectSize must accept the decoded dimensions. -/
def isValidCached (squareTiles : Bool) (st : CacheDir) (item : MediaItem) : Bool :=
  match lookupFile st item.ID with
  | none => false
  | some f =>
    if f.isDir then false
    else
      match f.header with
      | none => false
      | some wh => imageHasCorrectSize squareTiles wh.1 wh.2 item

/-- Validity in the words of the spec: a cache entry exists for the item
identifier and its decoded header dimensions equal Width times Height of the
item. -/
def specIsValid (st : CacheDir) (item : MediaItem) : Prop :=
  decodeHeader st item.ID = some (item.Width, item.Height)

instance (st : CacheDir) (item : MediaItem) : Decidable (specIsValid st item) := by
  unfold specIsValid; infer_instance

/-! Run pipeline: downloadImages, eviction, failed-item removal and
buildWallpaper.  The download goroutines write to distinct per-identifier
paths and only join through the failure list, so the phase is modelled as a
sequential fold in item order.  The environment records the outcome of the
external effects: http.Get plus image.Decode for a URL, and os.Create and
jpeg.Encode for a cache path. -/

structure Env where
  fetchImage : String → Option (Int × Int)
  createOK : String → Bool
  encodeOK : String → Bool
  -- Header that image.DecodeConfig reads from the truncated file a failed
  -- jpeg.Encode leaves behind on that path.  The encoder writes through a
  -- buffered writer, so the flushed prefix may hold no decodable header
  -- (none) or a complete header carrying the stored dimensions (some).
  partialHeader : String → Option (Int × Int)

-- Go: func cachedImages() map[string]bool (directories ignored)
def cachedImages (st : CacheDir) : List String :=
  (st.filter (fun f => !f.isDir)).map CacheFile.name

/-- Effect of os.Create on the directory: the entry at that name is replaced
(truncated) by the given file. -/
def setFile (st : CacheDir) (f : CacheFile) : CacheDir :=
  st.filter (fun g => !(g.name == f.name)) ++ [f]

-- Go: os.Remove on the cache path of a name
def removeName (st : CacheDir) (n : String) : CacheDir :=
  st.filter (fun g => !(g.name == n))

/-- Embedding of func downloadImage: fetch and decode the URL, crop when
square tiles are requested and the bitmap is not square (mutating the item),
then create (truncate) the cache file and encode into it.  Returns the
success flag, the possibly mutated item and the new directory state.  A
create failure leaves the directory unchanged; an encode failure leaves the
truncated file at the final path, whose header decodes to whatever prefix
the buffered encoder had flushed (partialHeader). -/
def downloadImage (sq : Bool) (env : Env) (st : CacheDir) (item : MediaItem) :
    Bool × MediaItem × CacheDir :=
  match env.fetchImage item.URL with
  | none => (false, item, st)
  | some wh =>
    let upd := downloadImageUpdateItem sq wh.1 wh.2 item
    if env.createOK item.ID then
      let stTrunc := setFile st ⟨item.ID, false, none⟩
      if env.encodeOK item.ID then
        let stored := if upd.2 then (cropImage wh.1 wh.2).1 else wh
        (true, upd.1, setFile stTrunc ⟨item.ID, false, some stored⟩)
      else
        (false, upd.1, setFile stTrunc ⟨item.ID, false, env.partialHeader item.ID⟩)
    else
      (false, upd.1, st)

/-- State carried through the item loop of downloadImages: directory state,
the remaining entries of the cache map (whose leftovers are evicted), the
items seen so far (with in-place mutations applied), the failure list and
the identifiers for which a network fetch was issued. -/
structure DLState where
  st : CacheDir
  cacheInfo : List String
  itemsOut : List MediaItem
  failed : List String
  fetched : List String

/-- One iteration of the loop in downloadImages: look the item up in the
cache map (deleting it when present), skip the fetch when the cached entry
opens, decodes and has the correct size, and otherwise download it, putting
it on the failure list when the download fails. -/
def processItem (sq : Bool) (env : Env) (s : DLState) (item : MediaItem) :
    DLState :=
  let cached := s.cacheInfo.contains item.ID
  let cacheInfo2 :=
    if cached then s.cacheInfo.filter (fun n => !(n == item.ID)) else s.cacheInfo
  if cached && isValidCached sq s.st item then
    { s with cacheInfo := cacheInfo2, itemsOut := s.itemsOut ++ [item] }
  else
    let r := downloadImage sq env s.st item
    { st := r.2.2
      cacheInfo := cacheInfo2
      itemsOut := s.itemsOut ++ [r.2.1]
      failed := if r.1 then s.failed else s.failed ++ [item.ID]
      fetched := s.fetched ++ [item.ID] }

/-- Go slice semantics of removeItem: append(items[:i], items[i+1:]...)
shifts the elements after the match one slot left inside the shared backing
array and returns a header one shorter; the element at the old last in-range
position keeps its previous value, and the caller of downloadImages still
sees the backing array at its original length. -/
def goRemoveItem (p : List MediaItem × Nat) (id : String) :
    List MediaItem × Nat :=
  match (p.1.take p.2).findIdx? (fun it => it.ID == id) with
  | none => p
  | some i =>
    (p.1.take i ++ (p.1.drop (i + 1)).take (p.2 - 1 - i) ++ p.1.drop (p.2 - 1),
      p.2 - 1)

structure DLResult where
  st : CacheDir
  backing : List MediaItem
  fetched : List String

/-- Embedding of func downloadImages: fold the items, remove the leftover
(deprecated) names of the cache map, then run the failed-item removal loop.
The backing field is what the caller continues to use, since the Go function
reassigns only its local slice header. -/
def downloadImages (sq : Bool) (env : Env) (st0 : CacheDir)
    (items : List MediaItem) : DLResult :=
  let s := items.foldl (processItem sq env) ⟨st0, cachedImages st0, [], [], []⟩
  let st1 := s.cacheInfo.foldl removeName s.st
  let rm := s.failed.foldl goRemoveItem (s.itemsOut, s.itemsOut.length)
  ⟨st1, rm.1, s.fetched⟩

inductive RunOutcome where
  | ok
  | fatalOpenCached (id : String)
deriving DecidableEq

/-- Embedding of func buildWallpaper: both drawing functions call
openCachedImage for every item and abort the run through fatalIf when a
cached image cannot be opened and decoded; on success the composited
wallpaper is encoded into a file inside the cache directory. -/
def buildWallpaper (st : CacheDir) (items : List MediaItem)
    (wallpaperName : String) (outW outH : Int) : RunOutcome × CacheDir :=
  match items.find? (fun it => (decodeHeader st it.ID).isNone) with
  | some it => (RunOutcome.fatalOpenCached it.ID, st)
  | none => (RunOutcome.ok, setFile st ⟨wallpaperName, false, some (outW, outH)⟩)

/-- Embedding of the tail of func main: with no items the run returns before
touching the cache; otherwise the download phase runs, then buildWallpaper
composites over the caller-visible item slice.  Returns the outcome, the
final cache directory and the identifiers fetched from the network. -/
def runPipeline (sq : Bool) (env : Env) (st0 : CacheDir)
    (items : List MediaItem) (wallpaperName : String) (outW outH : Int) :
    RunOutcome × CacheDir × List String :=
  if items.isEmpty then (RunOutcome.ok, st0, [])
  else
    let dl := downloadImages sq env st0 items
    let bw := buildWallpaper dl.st dl.backing wallpaperName outW outH
    (bw.1, bw.2, dl.fetched)

/-! Byte-level model of the cache write for the atomicity claim.  The write
in downloadImage is os.Create followed by streaming jpeg.Encode into the
file at its final path: right after os.Create the file is visible and empty,
then each written byte extends the visible content, and a failure after k
bytes leaves that prefix as the persistent content. -/

def cacheWriteStates (encoded : List Nat) (failAfter : Option Nat) :
    List (List Nat) :=
  match failAfter with
  | none => (List.range (encoded.length + 1)).map (fun k => encoded.take k)
  | some k => (List.range (k + 1)).map (fun j => encoded.take j)

def cacheWritePersists (encoded : List Nat) (failAfter : Option Nat) :
    List Nat :=
  match failAfter with
  | none => encoded
  | some k => encoded.take k

/-! Justified (non-square) grid layout, func drawNonSquareGrid.  The grid
configuration collects the flag variables the function reads.  The Go code
accumulates the aspect ratios in a float64; the embedding keeps the value as
an exact fraction aggN / aggD of integers.  The width each non-terminal image
receives from the keep-aspect-ratio resize of the external library is
abstracted as a function argument resizeKeepRatioW. -/

structure GridCfg where
  gridCols : Nat
  gridSize : Int
  gridSpacing : Int
deriving DecidableEq

-- Go: desiredWidth := cols*(gridSize+gridSpacing) - gridSpacing
def desiredWidth (c : GridCfg) : Int :=
  (c.gridCols : Int) * (c.gridSize + c.gridSpacing) - c.gridSpacing

-- Go: desiredRowWidth := desiredWidth + (cols * gridSpacing) - gridSpacing
def desiredRowWidth (c : GridCfg) : Int :=
  desiredWidth c + (c.gridCols : Int) * c.gridSpacing - c.gridSpacing

/-- First loop of drawNonSquareGrid: walk the items (pairs of item Width and
Height), accumulate the ratio sum of the current row and emit the row height
together with the row group when the row fills or the items end.  The row
height int(float64(desiredWidth) / aggregatedRatio) truncates toward zero,
which on the exact fraction is (desiredWidth * aggD).tdiv aggN. -/
def rowHeightsAux (c : GridCfg) :
    Nat → Int → Int → List (Int × Int) → List (Int × Int) →
      List (Int × List (Int × Int))
  | _, _, _, _, [] => []
  | col, aggN, aggD, cur, item :: rest =>
    let aggN2 := aggN * item.2 + item.1 * aggD
    let aggD2 := aggD * item.2
    let col2 := col + 1
    let cur2 := cur ++ [item]
    if col2 == c.gridCols || rest.isEmpty then
      ((desiredWidth c * aggD2).tdiv aggN2, cur2) :: rowHeightsAux c 0 0 1 [] rest
    else
      rowHeightsAux c col2 aggN2 aggD2 cur2 rest

/-- Second loop of drawNonSquareGrid: walk the items (pairs of cached image
width and height), compute each placed width and emit the placed widths of
every row.  An item is terminal when it closes a row (col == cols-1) or is
the last item overall; a terminal item is stretched by the remaining pixel
difference to the desiredRowWidth target.  The resize is skipped when the
cached image height already equals the row height. -/
def rowWidthsAux (c : GridCfg) (resizeKeepRatioW : Int → Int → Int → Int)
    (heights : List Int) :
    Nat → Nat → Int → List Int → List (Int × Int) → List (List Int)
  | _, _, _, _, [] => []
  | row, col, rowWidth, cur, img :: rest =>
    let h := heights.getD row 0
    let terminal := col + 1 == c.gridCols || rest.isEmpty
    let w : Int :=
      if terminal then
        let aw := (h * img.1).tdiv img.2
        aw + (desiredRowWidth c - rowWidth - aw)
      else 0
    let dW :=
      if img.2 != h then (if terminal then w else resizeKeepRatioW h img.1 img.2)
      else img.1
    let cur2 := cur ++ [dW]
    let rowWidth2 := rowWidth + dW + c.gridSpacing
    if col + 1 == c.gridCols then
      cur2 :: rowWidthsAux c resizeKeepRatioW heights (row + 1) 0 0 [] rest
    else if rest.isEmpty then
      [cur2]
    else
      rowWidthsAux c resizeKeepRatioW heights row (col + 1) rowWidth2 cur2 rest

/-- Condition under which every terminal item of the walk is actually
resized, that is, its cached height differs from its row height: otherwise
the code skips the resize and the stretch correction is lost. -/
def allTerminalResized (c : GridCfg) (heights : List Int) :
    Nat → Nat → List (Int × Int) → Bool
  | _, _, [] => true
  | row, col, img :: rest =>
    let h := heights.getD row 0
    let terminal := col + 1 == c.gridCols || rest.isEmpty
    (!terminal || img.2 != h) &&
      (if col + 1 == c.gridCols then allTerminalResized c heights (row + 1) 0 rest
       else allTerminalResized c heights row (col + 1) rest)

/-- Sum of the aspect ratios of a row group, as the spec words it. -/
def ratioSumQ (g : List (Int × Int)) : ℚ :=
  (g.map fun p => (p.1 : ℚ) / (p.2 : ℚ)).sum

/-- Success of the per-item external effects: the fetch decodes and the cache
file can be created and encoded. -/
def fetchOK (env : Env) (it : MediaItem) : Prop :=
  (env.fetchImage it.URL).isSome = true ∧ env.createOK it.ID = true ∧
    env.encodeOK it.ID = true

instance (env : Env) (it : MediaItem) : Decidable (fetchOK env it) := by
  unfold fetchOK
  infer_instance

/-! Support lemmas about the directory model. -/

theorem cachedImages_mem (st : CacheDir) (n : String) :
    n ∈ cachedImages st ↔ ∃ f ∈ st, f.isDir = false ∧ f.name = n := by
  simp only [cachedImages, List.mem_map, List.mem_filter, Bool.not_eq_true']
  constructor
  · rintro ⟨f, ⟨hf, hd⟩, hn⟩; exact ⟨f, hf, hd, hn⟩
  · rintro ⟨f, hf, hd, hn⟩; exact ⟨f, ⟨hf, hd⟩, hn⟩

theorem cachedImages_setFile (st : CacheDir) (f : CacheFile)
    (hf : f.isDir = false) (n : String) :
    n ∈ cachedImages (setFile st f) ↔ n ∈ cachedImages st ∨ n = f.name := by
  constructor
  · intro h
    obtain ⟨g, hgmem, hgd, hgn⟩ := (cachedImages_mem _ _).mp h
    rcases List.mem_append.mp hgmem with hg1 | hg2
    · obtain ⟨hg, _⟩ := List.mem_filter.mp hg1
      exact Or.inl ((cachedImages_mem _ _).mpr ⟨g, hg, hgd, hgn⟩)
    · have hgf : g = f := by simpa using hg2
      subst hgf
      exact Or.inr hgn.symm
  · intro h
    rcases h with h | h
    · obtain ⟨g, hg, hgd, hgn⟩ := (cachedImages_mem _ _).mp h
      by_cases he : n = f.name
      · exact (cachedImages_mem _ _).mpr
          ⟨f, List.mem_append.mpr (Or.inr (by simp)), hf, he.symm⟩
      · refine (cachedImages_mem _ _).mpr
          ⟨g, List.mem_append.mpr (Or.inl (List.mem_filter.mpr ⟨hg, ?_⟩)), hgd, hgn⟩
        rw [hgn]
        simp [he]
    · exact (cachedImages_mem _ _).mpr
        ⟨f, List.mem_append.mpr (Or.inr (by simp)), hf, h.symm⟩

theorem cachedImages_removeName (st : CacheDir) (m n : String) :
    n ∈ cachedImages (removeName st m) ↔ n ∈ cachedImages st ∧ n ≠ m := by
  constructor
  · intro h
    obtain ⟨g, hgmem, hgd, hgn⟩ := (cachedImages_mem _ _).mp h
    obtain ⟨hg, hne⟩ := List.mem_filter.mp hgmem
    refine ⟨(cachedImages_mem _ _).mpr ⟨g, hg, hgd, hgn⟩, ?_⟩
    intro hnm
    rw [hgn, hnm] at hne
    simp at hne
  · rintro ⟨h, hne⟩
    obtain ⟨g, hg, hgd, hgn⟩ := (cachedImages_mem _ _).mp h
    refine (cachedImages_mem _ _).mpr
      ⟨g, List.mem_filter.mpr ⟨hg, ?_⟩, hgd, hgn⟩
    rw [hgn]
    simp [hne]

theorem lookupFile_setFile (st : CacheDir) (f : CacheFile) (n : String) :
    lookupFile (setFile st f) n = if n = f.name then some f else lookupFile st n := by
  induction st with
  | nil =>
    by_cases h : n = f.name
    · simp [lookupFile, setFile, h]
    · simp [lookupFile, setFile, h, fun hh => h (by simpa using hh)]
      intro hh
      exact absurd hh.symm h
  | cons g st ih =>
    by_cases hg : g.name = f.name
    · have h1 : setFile (g :: st) f = setFile st f := by
        simp [setFile, hg]
      rw [h1, ih]
      by_cases h : n = f.name
      · simp [h]
      · have hgn : ¬ g.name = n := fun hh => h (hh ▸ hg)
        simp [h, lookupFile, List.find?, show (g.name == n) = false by simpa using hgn]
    · have h1 : setFile (g :: st) f = g :: setFile st f := by
        simp [setFile, show (g.name == f.name) = false by simpa using hg]
      rw [h1]
      by_cases hgn : g.name = n
      · have hnotf : ¬ n = f.name := fun hh => hg (hgn.symm ▸ hh)
        simp [lookupFile, List.find?, show (g.name == n) = true by simpa using hgn,
          hnotf]
      · simp only [lookupFile, List.find?,
          show (g.name == n) = false by simpa using hgn]
        exact ih

theorem lookupFile_removeName (st : CacheDir) (m n : String) (h : n ≠ m) :
    lookupFile (removeName st m) n = lookupFile st n := by
  induction st with
  | nil => rfl
  | cons g st ih =>
    by_cases hg : g.name = m
    · have h1 : removeName (g :: st) m = removeName st m := by
        simp [removeName, hg]
      rw [h1, ih]
      have hgn : ¬ g.name = n := by
        rw [hg]
        exact fun hh => h hh.symm
      simp [lookupFile, List.find?, show (g.name == n) = false by simpa using hgn]
    · have h1 : removeName (g :: st) m = g :: removeName st m := by
        simp [removeName, show (g.name == m) = false by simpa using hg]
      rw [h1]
      by_cases hgn : g.name = n
      · simp [lookupFile, List.find?, show (g.name == n) = true by simpa using hgn]
      · simp only [lookupFile, List.find?,
          show (g.name == n) = false by simpa using hgn]
        exact ih

theorem foldl_removeName_lookup :
    ∀ (names : List String) (st : CacheDir) (n : String), n ∉ names →
      lookupFile (names.foldl removeName st) n = lookupFile st n := by
  intro names
  induction names with
  | nil => intro st n _; rfl
  | cons m names ih =>
    intro st n hn
    have hm : n ≠ m := by
      intro hh
      exact hn (by rw [hh]; exact List.mem_cons_self _ _)
    rw [List.foldl_cons, ih _ _ (fun h => hn (List.mem_cons_of_mem _ h)),
      lookupFile_removeName _ _ _ hm]

theorem foldl_removeName_mem :
    ∀ (names : List String) (st : CacheDir) (n : String),
      n ∈ cachedImages (names.foldl removeName st) ↔
        n ∈ cachedImages st ∧ n ∉ names := by
  intro names
  induction names with
  | nil => intro st n; simp
  | cons m names ih =>
    intro st n
    rw [List.foldl_cons, ih, cachedImages_removeName]
    simp only [List.mem_cons]
    tauto

theorem lookupFile_some {st : CacheDir} {n : String} {f : CacheFile}
    (h : lookupFile st n = some f) : f ∈ st ∧ f.name = n :=
  ⟨List.mem_of_find?_eq_some h, by simpa using List.find?_some h⟩

theorem isValidCached_good {sq : Bool} {st : CacheDir} {it : MediaItem}
    (h : isValidCached sq st it = true) :
    (decodeHeader st it.ID).isSome = true ∧ it.ID ∈ cachedImages st := by
  unfold isValidCached at h
  split at h
  · exact absurd h (by simp)
  · rename_i f hf
    by_cases hd : f.isDir = true
    · rw [if_pos hd] at h; exact absurd h (by simp)
    · rw [if_neg hd] at h
      split at h
      · exact absurd h (by simp)
      · rename_i wh hh
        have hmem := lookupFile_some hf
        refine ⟨?_, (cachedImages_mem st it.ID).mpr
          ⟨f, hmem.1, by simpa using hd, hmem.2⟩⟩
        simp [decodeHeader, hf, hd, hh]

theorem isValidCached_congr {sq : Bool} {st st2 : CacheDir} {it : MediaItem}
    (h : lookupFile st it.ID = lookupFile st2 it.ID) :
    isValidCached sq st it = isValidCached sq st2 it := by
  unfold isValidCached
  rw [h]

theorem downloadImageUpdateItem_ID (sq : Bool) (w h : Int) (it : MediaItem) :
    (downloadImageUpdateItem sq w h it).1.ID = it.ID := by
  unfold downloadImageUpdateItem
  split <;> rfl

theorem processItem_valid {sq : Bool} {env : Env} {s : DLState} {it : MediaItem}
    (h1 : s.cacheInfo.contains it.ID = true)
    (h2 : isValidCached sq s.st it = true) :
    processItem sq env s it =
      { s with cacheInfo := s.cacheInfo.filter (fun n => !(n == it.ID)),
               itemsOut := s.itemsOut ++ [it] } := by
  unfold processItem
  have hm : it.ID ∈ s.cacheInfo := by simpa using h1
  simp [h1, h2, hm]

theorem processItem_fetch {sq : Bool} {env : Env} {s : DLState} {it : MediaItem}
    (h : ¬(s.cacheInfo.contains it.ID = true ∧ isValidCached sq s.st it = true)) :
    processItem sq env s it =
      { st := (downloadImage sq env s.st it).2.2
        cacheInfo := if s.cacheInfo.contains it.ID = true then
            s.cacheInfo.filter (fun n => !(n == it.ID)) else s.cacheInfo
        itemsOut := s.itemsOut ++ [(downloadImage sq env s.st it).2.1]
        failed := if (downloadImage sq env s.st it).1 = true then s.failed
          else s.failed ++ [it.ID]
        fetched := s.fetched ++ [it.ID] } := by
  unfold processItem
  rw [if_neg (by simp only [Bool.and_eq_true]; exact h)]

theorem downloadImage_names_sub {sq : Bool} {env : Env} {st : CacheDir}
    {it : MediaItem} {n : String}
    (h : n ∈ cachedImages (downloadImage sq env st it).2.2) :
    n ∈ cachedImages st ∨ n = it.ID := by
  unfold downloadImage at h
  split at h
  · exact Or.inl h
  · by_cases hc : env.createOK it.ID = true
    · by_cases he : env.encodeOK it.ID = true
      · simp only [hc, he, if_true] at h
        rcases (cachedImages_setFile _ _ rfl n).mp h with h2 | h2
        · rcases (cachedImages_setFile _ _ rfl n).mp h2 with h3 | h3
          · exact Or.inl h3
          · exact Or.inr h3
        · exact Or.inr h2
      · simp only [hc, he, if_true, Bool.false_eq_true, if_false] at h
        rcases (cachedImages_setFile _ _ rfl n).mp h with h2 | h2
        · rcases (cachedImages_setFile _ _ rfl n).mp h2 with h3 | h3
          · exact Or.inl h3
          · exact Or.inr h3
        · exact Or.inr h2
    · simp only [hc, Bool.false_eq_true, if_false] at h
      exact Or.inl h

theorem downloadImage_lookup_other {sq : Bool} {env : Env} {st : CacheDir}
    {it : MediaItem} {n : String} (hne : n ≠ it.ID) :
    lookupFile (downloadImage sq env st it).2.2 n = lookupFile st n := by
  unfold downloadImage
  split
  · rfl
  · by_cases hc : env.createOK it.ID = true
    · by_cases he : env.encodeOK it.ID = true
      · simp only [hc, he, if_true]
        rw [lookupFile_setFile, lookupFile_setFile]
        simp [hne]
      · simp only [hc, he, if_true, Bool.false_eq_true, if_false]
        rw [lookupFile_setFile, lookupFile_setFile]
        simp [hne]
    · simp only [hc, Bool.false_eq_true, if_false]

theorem processItem_names_sub {sq : Bool} {env : Env} {s : DLState}
    {it : MediaItem} {n : String}
    (h : n ∈ cachedImages (processItem sq env s it).st) :
    n ∈ cachedImages s.st ∨ n = it.ID := by
  by_cases hv : s.cacheInfo.contains it.ID = true ∧ isValidCached sq s.st it = true
  · rw [processItem_valid hv.1 hv.2] at h
    exact Or.inl h
  · rw [processItem_fetch hv] at h
    exact downloadImage_names_sub h

theorem processItem_lookup_other {sq : Bool} {env : Env} {s : DLState}
    {it : MediaItem} {n : String} (hne : n ≠ it.ID) :
    lookupFile (processItem sq env s it).st n = lookupFile s.st n := by
  by_cases hv : s.cacheInfo.contains it.ID = true ∧ isValidCached sq s.st it = true
  · rw [processItem_valid hv.1 hv.2]
  · rw [processItem_fetch hv]
    exact downloadImage_lookup_other hne

theorem processItem_cacheInfo_other {sq : Bool} {env : Env} {s : DLState}
    {it : MediaItem} {n : String} (hne : n ≠ it.ID) :
    (n ∈ (processItem sq env s it).cacheInfo ↔ n ∈ s.cacheInfo) := by
  have hfilter : n ∈ s.cacheInfo.filter (fun m => !(m == it.ID)) ↔ n ∈ s.cacheInfo := by
    constructor
    · intro h; exact (List.mem_filter.mp h).1
    · intro h
      refine List.mem_filter.mpr ⟨h, ?_⟩
      simp [hne]
  by_cases hv : s.cacheInfo.contains it.ID = true ∧ isValidCached sq s.st it = true
  · rw [processItem_valid hv.1 hv.2]
    exact hfilter
  · rw [processItem_fetch hv]
    dsimp only
    by_cases hcc : s.cacheInfo.contains it.ID = true
    · rw [if_pos hcc]
      exact hfilter
    · rw [if_neg hcc]

theorem processItem_fetched_other {sq : Bool} {env : Env} {s : DLState}
    {it : MediaItem} {n : String} (hne : n ≠ it.ID) :
    (n ∈ (processItem sq env s it).fetched ↔ n ∈ s.fetched) := by
  by_cases hv : s.cacheInfo.contains it.ID = true ∧ isValidCached sq s.st it = true
  · rw [processItem_valid hv.1 hv.2]
  · rw [processItem_fetch hv]
    simp [hne]

theorem processItem_fetched_sub {sq : Bool} {env : Env} {s : DLState}
    {it : MediaItem} {n : String}
    (h : n ∈ (processItem sq env s it).fetched) :
    n ∈ s.fetched ∨ n = it.ID := by
  by_cases hv : s.cacheInfo.contains it.ID = true ∧ isValidCached sq s.st it = true
  · rw [processItem_valid hv.1 hv.2] at h
    exact Or.inl h
  · rw [processItem_fetch hv] at h
    simpa using h

theorem processItem_cacheInfo_mem {sq : Bool} {env : Env} {s : DLState}
    {it : MediaItem} {n : String} :
    n ∈ (processItem sq env s it).cacheInfo ↔ n ∈ s.cacheInfo ∧ n ≠ it.ID := by
  by_cases hne : n = it.ID
  · constructor
    · intro h
      exfalso
      have hnot : ∀ l : List String,
          n ∈ l.filter (fun m => !(m == it.ID)) → False := by
        intro l hl
        have h2 := (List.mem_filter.mp hl).2
        rw [hne] at h2
        simp at h2
      by_cases hv : s.cacheInfo.contains it.ID = true ∧
          isValidCached sq s.st it = true
      · rw [processItem_valid hv.1 hv.2] at h
        exact hnot _ h
      · rw [processItem_fetch hv] at h
        dsimp only at h
        by_cases hcc : s.cacheInfo.contains it.ID = true
        · rw [if_pos hcc] at h
          exact hnot _ h
        · rw [if_neg hcc] at h
          exact hcc (by rw [← hne]; simpa using h)
    · rintro ⟨_, hh⟩
      exact absurd hne hh
  · rw [processItem_cacheInfo_other hne]
    exact ⟨fun h => ⟨h, hne⟩, fun h => h.1⟩

theorem foldl_names_sub (sq : Bool) (env : Env) :
    ∀ (items : List MediaItem) (s : DLState) (n : String),
      n ∈ cachedImages (items.foldl (processItem sq env) s).st →
      n ∈ cachedImages s.st ∨ n ∈ items.map MediaItem.ID := by
  intro items
  induction items with
  | nil => intro s n h; exact Or.inl h
  | cons it rest ih =>
    intro s n h
    rcases ih (processItem sq env s it) n h with h2 | h2
    · rcases processItem_names_sub h2 with h3 | h3
      · exact Or.inl h3
      · exact Or.inr (by simp [h3])
    · exact Or.inr (by simp [h2])

theorem foldl_cacheInfo_mem (sq : Bool) (env : Env) :
    ∀ (items : List MediaItem) (s : DLState) (n : String),
      n ∈ (items.foldl (processItem sq env) s).cacheInfo ↔
        n ∈ s.cacheInfo ∧ n ∉ items.map MediaItem.ID := by
  intro items
  induction items with
  | nil => intro s n; simp
  | cons it rest ih =>
    intro s n
    rw [List.foldl_cons, ih, processItem_cacheInfo_mem]
    simp only [List.map_cons, List.mem_cons]
    tauto

theorem foldl_lookup_other (sq : Bool) (env : Env) :
    ∀ (items : List MediaItem) (s : DLState) (n : String),
      n ∉ items.map MediaItem.ID →
      lookupFile (items.foldl (processItem sq env) s).st n = lookupFile s.st n := by
  intro items
  induction items with
  | nil => intro s n _; rfl
  | cons it rest ih =>
    intro s n hn
    simp only [List.map_cons, List.mem_cons] at hn
    push_neg at hn
    rw [List.foldl_cons, ih _ _ hn.2, processItem_lookup_other hn.1]

theorem foldl_fetched_other (sq : Bool) (env : Env) :
    ∀ (items : List MediaItem) (s : DLState) (n : String),
      n ∉ items.map MediaItem.ID →
      (n ∈ (items.foldl (processItem sq env) s).fetched ↔ n ∈ s.fetched) := by
  intro items
  induction items with
  | nil => intro s n _; exact Iff.rfl
  | cons it rest ih =>
    intro s n hn
    simp only [List.map_cons, List.mem_cons] at hn
    push_neg at hn
    rw [List.foldl_cons, ih _ _ hn.2, processItem_fetched_other hn.1]

theorem foldl_fetched_sub (sq : Bool) (env : Env) :
    ∀ (items : List MediaItem) (s : DLState) (n : String),
      n ∈ (items.foldl (processItem sq env) s).fetched →
      n ∈ s.fetched ∨ n ∈ items.map MediaItem.ID := by
  intro items
  induction items with
  | nil => intro s n h; exact Or.inl h
  | cons it rest ih =>
    intro s n h
    rcases ih (processItem sq env s it) n h with h2 | h2
    · rcases processItem_fetched_sub h2 with h3 | h3
      · exact Or.inl h3
      · exact Or.inr (by simp [h3])
    · exact Or.inr (by simp [h2])


theorem downloadImage_success {sq : Bool} {env : Env} {st : CacheDir}
    {it : MediaItem} (hok : fetchOK env it) :
    (downloadImage sq env st it).1 = true ∧
    (downloadImage sq env st it).2.1.ID = it.ID ∧
    (decodeHeader (downloadImage sq env st it).2.2 it.ID).isSome = true ∧
    (∀ n, n ∈ cachedImages (downloadImage sq env st it).2.2 ↔
      n ∈ cachedImages st ∨ n = it.ID) := by
  obtain ⟨wh, hwh⟩ := Option.isSome_iff_exists.mp hok.1
  simp only [downloadImage, hwh, hok.2.1, hok.2.2, if_true]
  refine ⟨trivial, downloadImageUpdateItem_ID sq wh.1 wh.2 it, ?_, ?_⟩
  · unfold decodeHeader
    rw [lookupFile_setFile]
    simp
  · intro n
    rw [cachedImages_setFile _ _ rfl, cachedImages_setFile _ _ rfl]
    tauto

theorem processItem_success_step {sq : Bool} {env : Env} {s : DLState}
    {it : MediaItem} (hok : fetchOK env it) :
    (processItem sq env s it).failed = s.failed ∧
    (processItem sq env s it).itemsOut.map MediaItem.ID =
      s.itemsOut.map MediaItem.ID ++ [it.ID] ∧
    (∀ n, (decodeHeader s.st n).isSome = true →
      (decodeHeader (processItem sq env s it).st n).isSome = true) ∧
    (decodeHeader (processItem sq env s it).st it.ID).isSome = true ∧
    (∀ n, n ∈ cachedImages (processItem sq env s it).st ↔
      n ∈ cachedImages s.st ∨ n = it.ID) := by
  by_cases hv : s.cacheInfo.contains it.ID = true ∧ isValidCached sq s.st it = true
  · rw [processItem_valid hv.1 hv.2]
    have hg := isValidCached_good hv.2
    refine ⟨rfl, by simp, fun n h => h, hg.1, fun n => ?_⟩
    constructor
    · exact Or.inl
    · rintro (h | h)
      · exact h
      · rw [h]; exact hg.2
  · rw [processItem_fetch hv]
    have hd := @downloadImage_success sq env s.st it hok
    dsimp only
    refine ⟨by rw [if_pos hd.1], ?_, ?_, hd.2.2.1, hd.2.2.2⟩
    · simp [hd.2.1]
    · intro n h
      by_cases hne : n = it.ID
      · rw [hne]; exact hd.2.2.1
      · unfold decodeHeader at h ⊢
        rw [downloadImage_lookup_other hne]
        exact h

theorem foldl_success (sq : Bool) (env : Env) :
    ∀ (items : List MediaItem) (s : DLState),
      (∀ it ∈ items, fetchOK env it) →
      ((items.foldl (processItem sq env) s).failed = s.failed ∧
       (items.foldl (processItem sq env) s).itemsOut.map MediaItem.ID =
          s.itemsOut.map MediaItem.ID ++ items.map MediaItem.ID ∧
       (∀ n, (decodeHeader s.st n).isSome = true →
          (decodeHeader (items.foldl (processItem sq env) s).st n).isSome = true) ∧
       (∀ it ∈ items,
          (decodeHeader (items.foldl (processItem sq env) s).st it.ID).isSome = true) ∧
       (∀ n, n ∈ cachedImages (items.foldl (processItem sq env) s).st ↔
          n ∈ cachedImages s.st ∨ n ∈ items.map MediaItem.ID)) := by
  intro items
  induction items with
  | nil =>
    intro s _
    exact ⟨rfl, by simp, fun n h => h, by simp, fun n => by simp⟩
  | cons it rest ih =>
    intro s hok
    have hokit := hok it (List.mem_cons_self _ _)
    have hokrest : ∀ it2 ∈ rest, fetchOK env it2 :=
      fun it2 h => hok it2 (List.mem_cons_of_mem _ h)
    have hstep := @processItem_success_step sq env s it hokit
    have hrest := ih (processItem sq env s it) hokrest
    rw [List.foldl_cons]
    refine ⟨?_, ?_, ?_, ?_, ?_⟩
    · rw [hrest.1, hstep.1]
    · rw [hrest.2.1, hstep.2.1]
      simp
    · intro n h
      exact hrest.2.2.1 n (hstep.2.2.1 n h)
    · intro it2 h2
      rcases List.mem_cons.mp h2 with h3 | h3
      · subst h3
        exact hrest.2.2.1 it2.ID hstep.2.2.2.1
      · exact hrest.2.2.2.1 it2 h3
    · intro n
      rw [hrest.2.2.2.2, hstep.2.2.2.2]
      simp only [List.map_cons, List.mem_cons]
      tauto

/-! Theorems for claims C1, C3, C6, C7. -/

/-- C1: in square-grid mode, for every item count N at least 1 and requested
column count C at least 1, rows = ceil(N / C) and cols = ceil(N / rows)
satisfy rows * cols at least N and rows * cols - N < cols (no fully empty
trailing row). -/
theorem squareGrid_rows_cols (N C : Int) (hN : 1 ≤ N) (hC : 1 ≤ C) :
    N ≤ ceilIntDivision N C * ceilIntDivision N (ceilIntDivision N C) ∧
    ceilIntDivision N C * ceilIntDivision N (ceilIntDivision N C) - N <
      ceilIntDivision N (ceilIntDivision N C) := by
  have hN0 : (0 : Int) ≤ N - 1 := by linarith
  have hC0 : (0 : Int) ≤ C := by linarith
  have hq1 : ceilIntDivision N C = 1 + (N - 1) / C := by
    unfold ceilIntDivision
    rw [Int.tdiv_eq_ediv hN0 hC0]
  set q1 : Int := (N - 1) / C with hq1def
  have hq1nn : 0 ≤ q1 := Int.ediv_nonneg hN0 hC0
  have he1 : C * q1 + (N - 1) % C = N - 1 := Int.ediv_add_emod (N - 1) C
  have hr1lt : (N - 1) % C < C := Int.emod_lt_of_pos (N - 1) (by linarith)
  have hr1nn : 0 ≤ (N - 1) % C := Int.emod_nonneg (N - 1) (by linarith)
  set rows : Int := ceilIntDivision N C with hrows
  have hrowspos : 1 ≤ rows := by rw [hq1]; linarith
  have hq2 : ceilIntDivision N rows = 1 + (N - 1) / rows := by
    unfold ceilIntDivision
    rw [Int.tdiv_eq_ediv hN0 (by linarith)]
  set q2 : Int := (N - 1) / rows with hq2def
  have hq2nn : 0 ≤ q2 := Int.ediv_nonneg hN0 (by linarith)
  have he2 : rows * q2 + (N - 1) % rows = N - 1 := Int.ediv_add_emod (N - 1) rows
  have hr2lt : (N - 1) % rows < rows := Int.emod_lt_of_pos (N - 1) (by linarith)
  have hr2nn : 0 ≤ (N - 1) % rows := Int.emod_nonneg (N - 1) (by linarith)
  set cols : Int := ceilIntDivision N rows with hcols
  have hcolsval : cols = 1 + q2 := hq2
  -- cols is at most C
  have hcolsleC : cols ≤ C := by
    rw [hcolsval]
    by_contra hlt
    push_neg at hlt
    have hq2geC : C ≤ q2 := by linarith
    have hmul : rows * C ≤ rows * q2 :=
      mul_le_mul_of_nonneg_left hq2geC (by linarith)
    have hrowsC : rows * C = C + C * q1 := by rw [hq1]; ring
    nlinarith
  constructor
  · -- rows * cols is at least N
    have h : rows * cols = rows + rows * q2 := by rw [hcolsval]; ring
    nlinarith
  · -- rows * cols - N < cols, i.e. (rows - 1) * cols < N
    have hmul : q1 * cols ≤ q1 * C := mul_le_mul_of_nonneg_left hcolsleC hq1nn
    have hq1C : q1 * C ≤ N - 1 := by nlinarith
    have h : rows * cols = q1 * cols + cols := by rw [hq1]; ring
    nlinarith

/-- C1 witness: 7 items with 5 requested columns give rows = 2, cols = 4,
8 slots, one trailing empty slot. -/
theorem squareGrid_rows_cols_witness :
    ceilIntDivision 7 5 = 2 ∧
    ceilIntDivision 7 (ceilIntDivision 7 5) = 4 ∧
    (7 ≤ ceilIntDivision 7 5 * ceilIntDivision 7 (ceilIntDivision 7 5) ∧
      ceilIntDivision 7 5 * ceilIntDivision 7 (ceilIntDivision 7 5) - 7 <
        ceilIntDivision 7 (ceilIntDivision 7 5)) :=
  ⟨by decide, by decide, squareGrid_rows_cols 7 5 (by decide) (by decide)⟩

/-- C3 counterexample: with square tiles enabled, an item requesting 1000 by
600 whose cache entry decodes to 600 by 600 passes the validity check of the
code, while the claim (header dimensions equal item.Width times item.Height)
rejects it.  So the claimed equivalence fails in square-tile mode. -/
theorem isValidCached_spec_counterexample :
    isValidCached true [⟨"abc", false, some (600, 600)⟩] ⟨"abc", "u", 1000, 600⟩ = true ∧
    ¬ specIsValid [⟨"abc", false, some (600, 600)⟩] ⟨"abc", "u", 1000, 600⟩ := by
  constructor
  · decide
  · decide

/-- C3 amended: the validity check returns true iff a decodable cache entry
exists for the item identifier and, in non-square mode, its header
dimensions equal item.Width times item.Height, while in square-tile mode both
header dimensions equal min(item.Width, item.Height). -/
theorem isValidCached_iff (sq : Bool) (st : CacheDir) (item : MediaItem) :
    isValidCached sq st item = true ↔
      decodeHeader st item.ID =
        some (if sq then
                (minInt item.Width item.Height, minInt item.Width item.Height)
              else (item.Width, item.Height)) := by
  unfold isValidCached decodeHeader
  cases hf : lookupFile st item.ID with
  | none => simp
  | some f =>
    by_cases hd : f.isDir
    · simp [hd]
    · cases hh : f.header with
      | none => simp [hd, hh]
      | some wh =>
        obtain ⟨w0, h0⟩ := wh
        cases sq with
        | false => simp [hd, hh, imageHasCorrectSize, and_comm]
        | true => simp [hd, hh, imageHasCorrectSize, and_comm]

/-- C6: center-cropping a W by H bitmap with W distinct from H yields a
square with side min(W, H); the crop offset is (max - min) / 2 (truncated)
on the longer axis and 0 on the shorter axis. -/
theorem cropImage_center_crop (W H : Int) (hW : 0 < W) (hH : 0 < H)
    (hne : W ≠ H) :
    cropImage W H =
      ((minInt W H, minInt W H),
        (if H < W then (maxInt W H - minInt W H).tdiv 2 else 0,
         if W < H then (maxInt W H - minInt W H).tdiv 2 else 0)) := by
  rcases lt_or_gt_of_ne hne with hlt | hgt
  · have hnlt : ¬ H < W := by linarith
    simp [cropImage, minInt, maxInt, hlt, hnlt, not_lt.mpr (le_of_lt hlt)]
  · have hnlt : ¬ W < H := by linarith
    simp [cropImage, minInt, maxInt, hgt, hnlt, not_lt.mpr (le_of_lt hgt)]

/-- C6 witness: a 1000 by 600 source crops to 600 by 600 with x offset 200
and y offset 0. -/
theorem cropImage_center_crop_witness :
    cropImage 1000 600 = ((600, 600), (200, 0)) ∧
    minInt 1000 600 = 600 ∧ (maxInt 1000 600 - minInt 1000 600).tdiv 2 = 200 := by
  refine ⟨?_, by decide, by decide⟩
  have h := cropImage_center_crop 1000 600 (by decide) (by decide) (by decide)
  rw [h]
  decide


theorem ratioSumQ_nil : ratioSumQ [] = 0 := rfl

theorem ratioSumQ_append_single (g : List (Int × Int)) (p : Int × Int) :
    ratioSumQ (g ++ [p]) = ratioSumQ g + (p.1 : ℚ) / (p.2 : ℚ) := by
  simp [ratioSumQ]

theorem floor_intCast_div (a b : Int) (hb : 0 < b) :
    ⌊(a : ℚ) / (b : ℚ)⌋ = a / b := by
  obtain ⟨n, rfl⟩ : ∃ n : ℕ, b = (n : Int) :=
    ⟨b.toNat, (Int.toNat_of_nonneg hb.le).symm⟩
  rw [show ((n : Int) : ℚ) = (n : ℚ) by push_cast; ring]
  exact Rat.floor_intCast_div_natCast a n

/-- Helper: a truncated division of nonnegative numerator by a positive
denominator is the floor of the exact quotient. -/
theorem tdiv_eq_floor (a b : Int) (ha : 0 ≤ a) (hb : 0 < b) :
    a.tdiv b = ⌊(a : ℚ) / (b : ℚ)⌋ := by
  rw [Int.tdiv_eq_ediv ha hb.le, floor_intCast_div a b hb]

/-- Invariant lemma for the row-height loop: every emitted row height is the
floor of desiredWidth divided by the ratio sum of the emitted group. -/
theorem rowHeightsAux_mem (c : GridCfg) (hD : 0 ≤ desiredWidth c) :
    ∀ (items cur : List (Int × Int)) (col : Nat) (aggN aggD : Int),
      (∀ p ∈ items, 0 < p.1 ∧ 0 < p.2) →
      0 ≤ aggN → 0 < aggD →
      (aggN : ℚ) / (aggD : ℚ) = ratioSumQ cur →
      ∀ hg ∈ rowHeightsAux c col aggN aggD cur items,
        hg.1 = ⌊(desiredWidth c : ℚ) / ratioSumQ hg.2⌋ := by
  intro items
  induction items with
  | nil => intro cur col aggN aggD _ _ _ _ hg hmem; simp [rowHeightsAux] at hmem
  | cons item rest ih =>
    intro cur col aggN aggD hpos haggN haggD hagg hg hmem
    obtain ⟨hitem, hrest⟩ := List.forall_mem_cons.mp hpos
    have hi1 : 0 < item.1 := hitem.1
    have hi2 : 0 < item.2 := hitem.2
    have haggN2 : 0 < aggN * item.2 + item.1 * aggD := by positivity
    have haggD2 : 0 < aggD * item.2 := by positivity
    have h2 : ((aggD : ℚ)) ≠ 0 := by positivity
    have h3 : ((item.2 : ℚ)) ≠ 0 := by positivity
    have hsum : ((aggN * item.2 + item.1 * aggD : Int) : ℚ) /
        ((aggD * item.2 : Int) : ℚ) = ratioSumQ (cur ++ [item]) := by
      rw [ratioSumQ_append_single, ← hagg]
      push_cast
      field_simp
      try ring
    rw [rowHeightsAux] at hmem
    by_cases hif : (col + 1 == c.gridCols || rest.isEmpty) = true
    · rw [if_pos hif] at hmem
      rcases List.mem_cons.mp hmem with hhead | htail
      · subst hhead
        show (desiredWidth c * (aggD * item.2)).tdiv (aggN * item.2 + item.1 * aggD)
            = ⌊(desiredWidth c : ℚ) / ratioSumQ (cur ++ [item])⌋
        rw [← hsum]
        rw [tdiv_eq_floor _ _ (by positivity) haggN2]
        have hN : ((aggN * item.2 + item.1 * aggD : Int) : ℚ) ≠ 0 := by
          push_cast
          positivity
        have hD2 : ((aggD * item.2 : Int) : ℚ) ≠ 0 := by
          push_cast
          positivity
        congr 1
        field_simp
      · exact ih [] 0 0 1 hrest le_rfl one_pos (by simp [ratioSumQ]) hg htail
    · rw [if_neg hif] at hmem
      exact ih (cur ++ [item]) (col + 1) (aggN * item.2 + item.1 * aggD)
        (aggD * item.2) hrest haggN2.le haggD2 hsum hg hmem

/-- Invariant lemma for the placed-width loop: provided every terminal item
is actually resized, every emitted row of placed widths sums, together with
the spacing between its items, to the desiredRowWidth constant of the code. -/
theorem rowWidthsAux_sum (c : GridCfg) (rwF : Int → Int → Int → Int)
    (heights : List Int) :
    ∀ (imgs : List (Int × Int)) (row col : Nat) (rowWidth : Int)
      (cur : List Int),
      rowWidth = cur.sum + (cur.length : Int) * c.gridSpacing →
      allTerminalResized c heights row col imgs = true →
      ∀ g ∈ rowWidthsAux c rwF heights row col rowWidth cur imgs,
        g.sum + ((g.length : Int) - 1) * c.gridSpacing = desiredRowWidth c := by
  intro imgs
  induction imgs with
  | nil => intro row col rowWidth cur _ _ g hmem; simp [rowWidthsAux] at hmem
  | cons img rest ih =>
    intro row col rowWidth cur hinv hterm g hmem
    rw [allTerminalResized] at hterm
    rw [rowWidthsAux] at hmem
    have hand := (Bool.and_eq_true _ _).mp hterm
    have hA := hand.1
    have hB := hand.2
    by_cases hcols : (col + 1 == c.gridCols) = true
    · -- the item closes a full row
      simp only [hcols, Bool.true_or, Bool.not_true, Bool.false_or] at hA
      simp only [hcols, eq_self_iff_true, if_true] at hB
      simp only [hcols, Bool.true_or, hA, eq_self_iff_true, if_true] at hmem
      rcases List.mem_cons.mp hmem with hhead | htail
      · subst hhead
        simp only [List.sum_append, List.length_append, List.sum_cons,
          List.sum_nil, List.length_cons, List.length_nil]
        push_cast
        rw [hinv]
        ring
      · exact ih (row + 1) 0 0 [] (by simp) hB g htail
    · have hcolsF : (col + 1 == c.gridCols) = false := by
        simpa using hcols
      by_cases hlast : rest.isEmpty = true
      · -- last item of the whole set, closing a partial final row
        simp only [hlast, Bool.or_true, Bool.not_true, Bool.false_or] at hA
        simp only [hcolsF, Bool.false_or, hlast, hA, Bool.or_true,
          Bool.false_eq_true, if_false, eq_self_iff_true, if_true] at hmem
        rcases List.mem_singleton.mp hmem with hhead
        subst hhead
        simp only [List.sum_append, List.length_append, List.sum_cons,
          List.sum_nil, List.length_cons, List.length_nil]
        push_cast
        rw [hinv]
        ring
      · -- middle of a row
        have hlastF : rest.isEmpty = false := by
          simpa using hlast
        simp only [hcolsF, Bool.false_eq_true, if_false, eq_self_iff_true] at hB
        simp only [hcolsF, hlastF, Bool.false_or, Bool.false_eq_true,
          if_false, eq_self_iff_true] at hmem
        refine ih row (col + 1)
          ((rowWidth + if (img.2 != heights.getD row 0) = true then
            rwF (heights.getD row 0) img.1 img.2 else img.1) + c.gridSpacing)
          (cur ++ [if (img.2 != heights.getD row 0) = true then
            rwF (heights.getD row 0) img.1 img.2 else img.1]) ?_ hB g ?_
        · simp only [List.sum_append, List.length_append, List.sum_cons,
            List.sum_nil, List.length_cons, List.length_nil]
          push_cast
          rw [hinv]
          ring
        · exact hmem

/-- C2 counterexample: with 2 columns, tile 10 and spacing 10, two items of
cached size 10 by 5, the computed row height is 7 and the placed widths are
14 and 16.  Their sum plus the inter-item spacing is 40, the internal
desiredRowWidth constant of the code, and not 30, the fixed target
C*(tile+spacing) - spacing named desiredRowWidth by the claim. -/
theorem justified_row_width_claim_counterexample :
    rowWidthsAux ⟨2, 10, 10⟩ (fun a b d => (a * b).tdiv d)
        ((rowHeightsAux ⟨2, 10, 10⟩ 0 0 1 [] [(10, 5), (10, 5)]).map Prod.fst)
        0 0 0 [] [(10, 5), (10, 5)] = [[14, 16]] ∧
    desiredWidth ⟨2, 10, 10⟩ = 30 ∧
    desiredRowWidth ⟨2, 10, 10⟩ = 40 ∧
    ¬ ([(14 : Int), 16].sum + ((2 : Int) - 1) * 10 = desiredWidth ⟨2, 10, 10⟩) :=
  ⟨by decide, by decide, by decide, by decide⟩

/-- C2 amended: each row height is the truncation of desiredWidth, which is
C*(tile+spacing) - spacing, divided by the ratio sum of the row; and, when
every terminal item is actually resized, the sum of the placed widths of a
row plus its inter-item spacing equals desiredWidth + (C-1)*spacing, the
correction target of the code, rather than desiredWidth itself. -/
theorem justified_grid_rows (c : GridCfg) (items : List (Int × Int))
    (rwF : Int → Int → Int → Int) (heights : List Int)
    (hpos : ∀ p ∈ items, 0 < p.1 ∧ 0 < p.2)
    (hD : 0 ≤ desiredWidth c)
    (hterm : allTerminalResized c heights 0 0 items = true) :
    (∀ hg ∈ rowHeightsAux c 0 0 1 [] items,
        hg.1 = ⌊(desiredWidth c : ℚ) / ratioSumQ hg.2⌋) ∧
    (∀ g ∈ rowWidthsAux c rwF heights 0 0 0 [] items,
        g.sum + ((g.length : Int) - 1) * c.gridSpacing =
          desiredWidth c + ((c.gridCols : Int) - 1) * c.gridSpacing) := by
  constructor
  · exact rowHeightsAux_mem c hD items [] 0 0 1 hpos le_rfl one_pos
      (by simp [ratioSumQ])
  · intro g hg
    have heq : desiredRowWidth c =
        desiredWidth c + ((c.gridCols : Int) - 1) * c.gridSpacing := by
      unfold desiredRowWidth; ring
    rw [← heq]
    exact rowWidthsAux_sum c rwF heights items 0 0 0 [] (by simp) hterm g hg

/-- C2 witness: the amended theorem evaluated on the counterexample
instance; the single row has height 7 = floor(30 / 4) and placed widths 14
and 16 summing with spacing to 40 = 30 + (2 - 1) * 10. -/
theorem justified_grid_rows_witness :
    ((7 : Int) = ⌊(desiredWidth ⟨2, 10, 10⟩ : ℚ) / ratioSumQ [(10, 5), (10, 5)]⌋) ∧
    ([(14 : Int), 16].sum + ((([(14 : Int), 16]).length : Int) - 1) * 10 =
      desiredWidth ⟨2, 10, 10⟩ + ((2 : Int) - 1) * 10) := by
  have h := justified_grid_rows ⟨2, 10, 10⟩ [(10, 5), (10, 5)]
    (fun a b d => (a * b).tdiv d)
    ((rowHeightsAux ⟨2, 10, 10⟩ 0 0 1 [] [(10, 5), (10, 5)]).map Prod.fst)
    (by decide) (by decide) (by decide)
  constructor
  · have h1 := h.1 (7, [(10, 5), (10, 5)]) (by decide)
    simpa using h1
  · have h2 := h.2 [14, 16] (by decide)
    simpa using h2

/-- C7: the download step writes the item dimensions exactly when square-tile
mode is active and the decoded bitmap is not square; in that case both fields
become the shorter edge of the bitmap and the identifier and URL are kept; in
every other case the item is returned unchanged. -/
theorem downloadImage_mutates_item_iff (sq : Bool) (imgW imgH : Int)
    (item : MediaItem) :
    ((downloadImageUpdateItem sq imgW imgH item).2 = true ↔
      (sq = true ∧ imgW ≠ imgH)) ∧
    (downloadImageUpdateItem sq imgW imgH item).1 =
      (if sq = true ∧ imgW ≠ imgH then
        { item with Width := minInt imgW imgH, Height := minInt imgW imgH }
      else item) := by
  unfold downloadImageUpdateItem cropImage
  by_cases hsq : sq = true
  · by_cases hne : imgW = imgH
    · simp [hsq, hne]
    · have : (imgW == imgH) = false := by
        simp [hne]
      simp [hsq, hne, this, minInt]
  · have : sq = false := by
      cases sq
      · rfl
      · exact absurd rfl hsq
    simp [this]

theorem downloadImages_names_sub (sq : Bool) (env : Env) (st0 : CacheDir)
    (items : List MediaItem) (n : String)
    (h : n ∈ cachedImages (downloadImages sq env st0 items).st) :
    n ∈ items.map MediaItem.ID := by
  unfold downloadImages at h
  dsimp only at h
  rw [foldl_removeName_mem] at h
  obtain ⟨h1, h2⟩ := h
  rcases foldl_names_sub sq env items _ n h1 with h3 | h3
  · by_contra hn
    apply h2
    rw [foldl_cacheInfo_mem]
    exact ⟨h3, hn⟩
  · exact h3

theorem buildWallpaper_names (st : CacheDir) (items : List MediaItem)
    (wp : String) (outW outH : Int) (n : String)
    (h : n ∈ cachedImages (buildWallpaper st items wp outW outH).2) :
    n ∈ cachedImages st ∨ n = wp := by
  unfold buildWallpaper at h
  split at h
  · exact Or.inl h
  · rcases (cachedImages_setFile _ _ rfl n).mp h with h2 | h2
    · exact Or.inl h2
    · exact Or.inr h2

theorem downloadImages_success_props (sq : Bool) (env : Env) (st0 : CacheDir)
    (items : List MediaItem) (hok : ∀ it ∈ items, fetchOK env it) :
    (downloadImages sq env st0 items).backing.map MediaItem.ID =
      items.map MediaItem.ID ∧
    (∀ it ∈ (downloadImages sq env st0 items).backing,
      (decodeHeader (downloadImages sq env st0 items).st it.ID).isSome = true) ∧
    (∀ n, n ∈ cachedImages (downloadImages sq env st0 items).st ↔
      n ∈ items.map MediaItem.ID) := by
  have hS := foldl_success sq env items ⟨st0, cachedImages st0, [], [], []⟩ hok
  unfold downloadImages
  dsimp only
  set s2 := items.foldl (processItem sq env) ⟨st0, cachedImages st0, [], [], []⟩
    with hs2
  have hfail : s2.failed = [] := hS.1
  rw [hfail]
  dsimp only [List.foldl_nil]
  have hback : s2.itemsOut.map MediaItem.ID = items.map MediaItem.ID := by
    have := hS.2.1
    simpa using this
  have hleft : ∀ m, m ∈ s2.cacheInfo ↔
      m ∈ cachedImages st0 ∧ m ∉ items.map MediaItem.ID := by
    intro m
    rw [hs2, foldl_cacheInfo_mem]
  refine ⟨hback, ?_, ?_⟩
  · intro it hit
    have hid : it.ID ∈ items.map MediaItem.ID := by
      rw [← hback]
      exact List.mem_map_of_mem _ hit
    have hnotleft : it.ID ∉ s2.cacheInfo := by
      rw [hleft]
      intro hc
      exact hc.2 hid
    obtain ⟨it3, hit3, hid3⟩ := List.mem_map.mp hid
    have hgood : (decodeHeader s2.st it.ID).isSome = true := by
      rw [← hid3]
      exact hS.2.2.2.1 it3 hit3
    unfold decodeHeader at hgood ⊢
    rw [foldl_removeName_lookup _ _ _ hnotleft]
    exact hgood
  · intro n
    rw [foldl_removeName_mem]
    have hnames := hS.2.2.2.2 n
    constructor
    · rintro ⟨h1, h2⟩
      rcases (hnames.mp h1) with h3 | h3
      · by_contra hn
        exact h2 ((hleft n).mpr ⟨h3, hn⟩)
      · exact h3
    · intro h
      refine ⟨hnames.mpr (Or.inr h), ?_⟩
      rw [hleft]
      intro hc
      exact hc.2 h

/-- C4: evaluation at a failing input.  A single item whose fetch fails is
appended to the failure list, but removeItem reassigns only the local slice
of downloadImages, so the caller still passes the failed item to
buildWallpaper; its cache entry does not exist, openCachedImage fails and
fatalIf aborts the run before any output file is produced, contradicting the
claim that a per-item fetch failure is never fatal. -/
theorem failedFetch_fatal_run :
    runPipeline false ⟨fun _ => none, fun _ => true, fun _ => true, fun _ => none⟩ []
        [⟨"a", "urlA", 10, 10⟩] "wallpaper_1.jpg" 1920 1080 =
      (RunOutcome.fatalOpenCached "a", [], ["a"]) ∧
    (downloadImages false ⟨fun _ => none, fun _ => true, fun _ => true, fun _ => none⟩ []
        [⟨"a", "urlA", 10, 10⟩]).backing = [⟨"a", "urlA", 10, 10⟩] :=
  ⟨by decide, by decide⟩

/-- C10: for every starting cache state and nonempty item set, every regular
file left in the cache directory after the run is named by a current item
identifier or is the wallpaper file this run wrote; in particular stale
wallpaper files of earlier runs are evicted because the wallpaper is written
into the directory that the eviction pass sweeps. -/
theorem eviction_sweeps_cache (sq : Bool) (env : Env) (st0 : CacheDir)
    (items : List MediaItem) (wp : String) (outW outH : Int)
    (hne : items ≠ []) :
    ∀ n ∈ cachedImages (runPipeline sq env st0 items wp outW outH).2.1,
      n ∈ items.map MediaItem.ID ∨ n = wp := by
  intro n hn
  have hempty : items.isEmpty = false := by
    cases items with
    | nil => exact absurd rfl hne
    | cons a l => rfl
  unfold runPipeline at hn
  rw [hempty] at hn
  simp only [Bool.false_eq_true, if_false] at hn
  rcases buildWallpaper_names _ _ _ _ _ n hn with h | h
  · exact Or.inl (downloadImages_names_sub sq env st0 items n h)
  · exact Or.inr h

/-- C10 witness: a run over a cache holding a stale wallpaper file and a
valid entry ends with exactly the item identifier and the fresh wallpaper
file in the cache directory. -/
theorem eviction_sweeps_cache_witness :
    ("a" ∈ ([⟨"a", "u", 212, 212⟩] : List MediaItem).map MediaItem.ID ∨
      "a" = "wallpaper_200.jpg") ∧
    cachedImages (runPipeline false
        ⟨fun _ => some (212, 212), fun _ => true, fun _ => true, fun _ => none⟩
        [⟨"wallpaper_100.jpg", false, some (1920, 1080)⟩,
         ⟨"a", false, some (212, 212)⟩]
        [⟨"a", "u", 212, 212⟩] "wallpaper_200.jpg" 1920 1080).2.1 =
      ["a", "wallpaper_200.jpg"] :=
  ⟨eviction_sweeps_cache false
      ⟨fun _ => some (212, 212), fun _ => true, fun _ => true, fun _ => none⟩
      [⟨"wallpaper_100.jpg", false, some (1920, 1080)⟩,
       ⟨"a", false, some (212, 212)⟩]
      [⟨"a", "u", 212, 212⟩] "wallpaper_200.jpg" 1920 1080 (by decide)
      "a" (by decide),
    by decide⟩

/-- C9: with unique identifiers, an item whose cache entry exists and passes
the validity check is never fetched from the network during the download
phase, and when every item has a valid entry the run issues zero network
fetches. -/
theorem cacheValidation_idempotent (sq : Bool) (env : Env) (st0 : CacheDir)
    (items : List MediaItem)
    (hnodup : (items.map MediaItem.ID).Nodup) :
    (∀ it ∈ items, it.ID ∈ cachedImages st0 → isValidCached sq st0 it = true →
      it.ID ∉ (downloadImages sq env st0 items).fetched) ∧
    ((∀ it ∈ items, it.ID ∈ cachedImages st0 ∧ isValidCached sq st0 it = true) →
      (downloadImages sq env st0 items).fetched = []) := by
  have part1 : ∀ it ∈ items, it.ID ∈ cachedImages st0 →
      isValidCached sq st0 it = true →
      it.ID ∉ (downloadImages sq env st0 items).fetched := by
    intro it hit hcached hvalid hfetched
    obtain ⟨pre, post, hsplit⟩ := List.append_of_mem hit
    subst hsplit
    have hmapsplit : (pre.map MediaItem.ID).Nodup ∧
        it.ID ∉ pre.map MediaItem.ID ∧ it.ID ∉ post.map MediaItem.ID := by
      rw [List.map_append, List.map_cons] at hnodup
      rcases List.nodup_append.mp hnodup with ⟨h1, h2, h3⟩
      refine ⟨h1, ?_, (List.nodup_cons.mp h2).1⟩
      intro hmem
      exact h3 hmem (List.mem_cons_self _ _)
    obtain ⟨_, hpre, hpost⟩ := hmapsplit
    unfold downloadImages at hfetched
    dsimp only at hfetched
    rw [List.foldl_append, List.foldl_cons] at hfetched
    set s1 := pre.foldl (processItem sq env)
      (⟨st0, cachedImages st0, [], [], []⟩ : DLState) with hs1
    have hlook : lookupFile s1.st it.ID = lookupFile st0 it.ID := by
      rw [hs1]
      exact foldl_lookup_other sq env pre _ it.ID hpre
    have hinfo : it.ID ∈ s1.cacheInfo := by
      rw [hs1, foldl_cacheInfo_mem]
      exact ⟨hcached, hpre⟩
    have hvalid1 : isValidCached sq s1.st it = true := by
      rw [isValidCached_congr hlook]
      exact hvalid
    have hcontains : s1.cacheInfo.contains it.ID = true := by
      simpa using hinfo
    rw [processItem_valid hcontains hvalid1] at hfetched
    rw [foldl_fetched_other sq env post _ it.ID hpost] at hfetched
    have hf1 : it.ID ∉ s1.fetched := by
      rw [hs1, foldl_fetched_other sq env pre _ it.ID hpre]
      simp
    exact hf1 hfetched
  refine ⟨part1, ?_⟩
  intro hvalidall
  apply List.eq_nil_iff_forall_not_mem.mpr
  intro n hn
  have hn2 : n ∈ (items.foldl (processItem sq env)
      (⟨st0, cachedImages st0, [], [], []⟩ : DLState)).fetched := by
    unfold downloadImages at hn
    dsimp only at hn
    exact hn
  rcases foldl_fetched_sub sq env items _ n hn2 with h | h
  · simp at h
  · obtain ⟨it, hit, hid⟩ := List.mem_map.mp h
    exact part1 it hit (hvalidall it hit).1 (hvalidall it hit).2
      (by rw [hid]; exact hn)

/-- C9 witness: scenario 3 of the spec, a cache holding a 212 by 212 entry
for identifier abc and an item requesting 212 by 212 triggers zero fetches. -/
theorem cacheValidation_idempotent_witness :
    (downloadImages false ⟨fun _ => none, fun _ => false, fun _ => false, fun _ => none⟩
        [⟨"abc", false, some (212, 212)⟩] [⟨"abc", "u", 212, 212⟩]).fetched =
      [] :=
  (cacheValidation_idempotent false
      ⟨fun _ => none, fun _ => false, fun _ => false, fun _ => none⟩
      [⟨"abc", false, some (212, 212)⟩] [⟨"abc", "u", 212, 212⟩]
      (by decide)).2 (by decide)

/-- C8 counterexample: running item set a, b, c over a cache holding a, b, x
deletes x, keeps a and b, downloads c — but the cache directory then also
contains the wallpaper file this run wrote, so it does not contain exactly
the identifiers of the current item set. -/
theorem run_cache_contains_wallpaper_counterexample :
    cachedImages (runPipeline false
        ⟨fun _ => some (212, 212), fun _ => true, fun _ => true, fun _ => none⟩
        [⟨"a", false, some (212, 212)⟩, ⟨"b", false, some (212, 212)⟩,
         ⟨"x", false, some (212, 212)⟩]
        [⟨"a", "ua", 212, 212⟩, ⟨"b", "ub", 212, 212⟩, ⟨"c", "uc", 212, 212⟩]
        "wallpaper_5.jpg" 1920 1080).2.1 =
      ["a", "b", "c", "wallpaper_5.jpg"] ∧
    ¬ (∀ n ∈ cachedImages (runPipeline false
        ⟨fun _ => some (212, 212), fun _ => true, fun _ => true, fun _ => none⟩
        [⟨"a", false, some (212, 212)⟩, ⟨"b", false, some (212, 212)⟩,
         ⟨"x", false, some (212, 212)⟩]
        [⟨"a", "ua", 212, 212⟩, ⟨"b", "ub", 212, 212⟩, ⟨"c", "uc", 212, 212⟩]
        "wallpaper_5.jpg" 1920 1080).2.1,
      n ∈ ([⟨"a", "ua", 212, 212⟩, ⟨"b", "ub", 212, 212⟩,
            ⟨"c", "uc", 212, 212⟩] : List MediaItem).map MediaItem.ID) :=
  ⟨by decide, by decide⟩

/-- C8 amended: when every fetch and store succeeds, the run ends cleanly
and the cache directory contains exactly the identifiers of the current item
set plus the wallpaper file written by this run: stale entries are removed,
current entries retained or refreshed, missing entries downloaded. -/
theorem run_cache_exactly_ids_plus_wallpaper (sq : Bool) (env : Env)
    (st0 : CacheDir) (items : List MediaItem) (wp : String) (outW outH : Int)
    (hne : items ≠ [])
    (hok : ∀ it ∈ items, fetchOK env it) :
    (runPipeline sq env st0 items wp outW outH).1 = RunOutcome.ok ∧
    (∀ n, n ∈ cachedImages (runPipeline sq env st0 items wp outW outH).2.1 ↔
      (n ∈ items.map MediaItem.ID ∨ n = wp)) := by
  have hempty : items.isEmpty = false := by
    cases items with
    | nil => exact absurd rfl hne
    | cons a l => rfl
  have hdl := downloadImages_success_props sq env st0 items hok
  have hfind : (downloadImages sq env st0 items).backing.find?
      (fun it => (decodeHeader (downloadImages sq env st0 items).st it.ID).isNone) =
      none := by
    apply List.find?_eq_none.mpr
    intro it hit
    have hsome := hdl.2.1 it hit
    intro hcon
    rw [Option.isNone_iff_eq_none] at hcon
    rw [hcon] at hsome
    exact absurd hsome (by simp)
  have hbw : buildWallpaper (downloadImages sq env st0 items).st
      (downloadImages sq env st0 items).backing wp outW outH =
      (RunOutcome.ok, setFile (downloadImages sq env st0 items).st
        ⟨wp, false, some (outW, outH)⟩) := by
    unfold buildWallpaper
    rw [hfind]
  have hrun : runPipeline sq env st0 items wp outW outH =
      (RunOutcome.ok, setFile (downloadImages sq env st0 items).st
        ⟨wp, false, some (outW, outH)⟩,
        (downloadImages sq env st0 items).fetched) := by
    unfold runPipeline
    rw [hempty]
    simp only [Bool.false_eq_true, if_false]
    rw [hbw]
  rw [hrun]
  refine ⟨rfl, ?_⟩
  intro n
  dsimp only
  rw [cachedImages_setFile _ _ rfl]
  rw [hdl.2.2 n]


/-- C8 witness: the amended theorem evaluated on the a, b, c over a, b, x
scenario with all effects succeeding. -/
theorem run_cache_exactly_ids_plus_wallpaper_witness :
    (runPipeline false ⟨fun _ => some (212, 212), fun _ => true, fun _ => true, fun _ => none⟩
        [⟨"a", false, some (212, 212)⟩, ⟨"b", false, some (212, 212)⟩,
         ⟨"x", false, some (212, 212)⟩]
        [⟨"a", "ua", 212, 212⟩, ⟨"b", "ub", 212, 212⟩, ⟨"c", "uc", 212, 212⟩]
        "wallpaper_5.jpg" 1920 1080).1 = RunOutcome.ok ∧
    ("x" ∈ cachedImages (runPipeline false
        ⟨fun _ => some (212, 212), fun _ => true, fun _ => true, fun _ => none⟩
        [⟨"a", false, some (212, 212)⟩, ⟨"b", false, some (212, 212)⟩,
         ⟨"x", false, some (212, 212)⟩]
        [⟨"a", "ua", 212, 212⟩, ⟨"b", "ub", 212, 212⟩, ⟨"c", "uc", 212, 212⟩]
        "wallpaper_5.jpg" 1920 1080).2.1 ↔
      ("x" ∈ ([⟨"a", "ua", 212, 212⟩, ⟨"b", "ub", 212, 212⟩,
               ⟨"c", "uc", 212, 212⟩] : List MediaItem).map MediaItem.ID ∨
        "x" = "wallpaper_5.jpg")) := by
  have h := run_cache_exactly_ids_plus_wallpaper false
    ⟨fun _ => some (212, 212), fun _ => true, fun _ => true, fun _ => none⟩
    [⟨"a", false, some (212, 212)⟩, ⟨"b", false, some (212, 212)⟩,
     ⟨"x", false, some (212, 212)⟩]
    [⟨"a", "ua", 212, 212⟩, ⟨"b", "ub", 212, 212⟩, ⟨"c", "uc", 212, 212⟩]
    "wallpaper_5.jpg" 1920 1080 (by decide) (by decide)
  exact ⟨h.1, h.2 "x"⟩

/-- C5 counterexample: the cache write is not all-or-nothing.  A previously
valid 212 by 212 entry for identifier a is truncated by os.Create before
encoding; when the encode fails, the persistent state for a is the broken
truncated file, not the previous entry.  At byte level the empty just
created file is an observable state distinct from both the previous and the
final content.  And a truncated file whose flushed prefix still carries a
decodable header with the expected dimensions passes the validity check, so
a partial entry persists across runs. -/
theorem cacheWrite_not_atomic_counterexample :
    (downloadImage false
        ⟨fun _ => some (100, 50), fun _ => true, fun _ => false, fun _ => none⟩
        [⟨"a", false, some (212, 212)⟩] ⟨"a", "u", 212, 212⟩).2.2 =
      [⟨"a", false, none⟩] ∧
    [(⟨"a", false, none⟩ : CacheFile)] ≠ [⟨"a", false, some (212, 212)⟩] ∧
    ([] : List Nat) ∈ cacheWriteStates [1, 2] (some 1) ∧
    ([] : List Nat) ≠ [1, 2] ∧
    isValidCached false
      (downloadImage false
          ⟨fun _ => some (100, 50), fun _ => true, fun _ => false,
            fun _ => some (212, 212)⟩
          [⟨"a", false, some (212, 212)⟩] ⟨"a", "u", 212, 212⟩).2.2
      ⟨"a", "u", 212, 212⟩ = true :=
  ⟨by decide, by decide, by decide, by decide, by decide⟩

/-- C5 amended: cache writes go directly to the final path, so a write
failing after k of n bytes persists the truncated prefix (not the previous
entry) and the empty just created file is an observable intermediate state;
a failed encode replaces the previously visible entry for the identifier by
the truncated file, and when the flushed prefix retains a decodable header
matching the expected dimensions that partial entry passes the validity
check of the next run, so partial entries can persist across runs. -/
theorem cacheWrite_not_atomic (enc : List Nat) (k : Nat) (hk : k < enc.length)
    (sq : Bool) (env : Env) (st : CacheDir) (item : MediaItem) (wh : Int × Int)
    (hfetch : (env.fetchImage item.URL).isSome = true)
    (hcreate : env.createOK item.ID = true)
    (hencode : env.encodeOK item.ID = false)
    (hflushed : env.partialHeader item.ID = some wh)
    (hsize : imageHasCorrectSize sq wh.1 wh.2 item = true) :
    cacheWritePersists enc (some k) ≠ enc ∧
    enc.take 0 ∈ cacheWriteStates enc (some k) ∧
    lookupFile (downloadImage sq env st item).2.2 item.ID =
      some ⟨item.ID, false, some wh⟩ ∧
    isValidCached sq (downloadImage sq env st item).2.2 item = true := by
  have hlook : lookupFile (downloadImage sq env st item).2.2 item.ID =
      some ⟨item.ID, false, some wh⟩ := by
    obtain ⟨wh2, hwh2⟩ := Option.isSome_iff_exists.mp hfetch
    simp only [downloadImage, hwh2, hcreate, hencode, if_true,
      Bool.false_eq_true, if_false]
    rw [lookupFile_setFile]
    simp [hflushed]
  refine ⟨?_, ?_, hlook, ?_⟩
  · intro h
    have hl := congrArg List.length h
    simp only [cacheWritePersists, List.length_take] at hl
    omega
  · exact List.mem_map.mpr ⟨0, List.mem_range.mpr (Nat.succ_pos k), rfl⟩
  · unfold isValidCached
    rw [hlook]
    simpa using hsize

/-- C5 witness: the amended theorem at a two byte encode failing after one
byte, with a flushed prefix whose header carries the expected 212 by 212
dimensions, over a cache previously holding a valid entry. -/
theorem cacheWrite_not_atomic_witness :
    cacheWritePersists [1, 2] (some 1) ≠ [1, 2] ∧
    ([1, 2] : List Nat).take 0 ∈ cacheWriteStates [1, 2] (some 1) ∧
    lookupFile (downloadImage false
        ⟨fun _ => some (100, 50), fun _ => true, fun _ => false,
          fun _ => some (212, 212)⟩
        [⟨"a", false, some (212, 212)⟩] ⟨"a", "u", 212, 212⟩).2.2 "a" =
      some ⟨"a", false, some (212, 212)⟩ ∧
    isValidCached false
      (downloadImage false
          ⟨fun _ => some (100, 50), fun _ => true, fun _ => false,
            fun _ => some (212, 212)⟩
          [⟨"a", false, some (212, 212)⟩] ⟨"a", "u", 212, 212⟩).2.2
      ⟨"a", "u", 212, 212⟩ = true :=
  cacheWrite_not_atomic [1, 2] 1 (by decide) false
    ⟨fun _ => some (100, 50), fun _ => true, fun _ => false,
      fun _ => some (212, 212)⟩
    [⟨"a", false, some (212, 212)⟩] ⟨"a", "u", 212, 212⟩ (212, 212)
    (by decide) (by decide) (by decide) (by decide) (by decide)
